import Mathlib

/-!
Verification of the Bambu flow core (`src/unnamed/part_000`): the HLS-Verilog
port extractor `parseHLSVerilogPorts`, the pin allocator inside
`generateBambuConstraintFile`, the constraint-file generator, and the
per-stage command builders (`runBambuSynthFlowCommand`, `runBambuMapFlowCommand`,
`runBambuPackFlowCommand`, `runBambuPlaceFlowCommand`, `runBambuRouteFlowCommand`,
`runBambuGenBitFlowCommand`).

Modelling choices:
* JavaScript strings become `String`/`List Char`; the regular expressions of the
  source are transcribed as explicit character scanners with exactly the
  backtracking behaviour the JS engine exhibits on these patterns (for these
  patterns the greedy/lazy choices are deterministic; see the comments at each
  scanner).  `\s` and `\w` are modelled over their ASCII range, and
  `toLowerCase` as ASCII lowering, which is what the generated Verilog and the
  identifiers involved use.
* The file system is a small record `FsModel` holding the two existence bits the
  code queries (`exists(constraintFilePath)`, `exists(verilogPath)`) and the text
  the code would read from the generated Verilog file.  A function that may call
  `writeTextFile` returns, next to its result, an `Option String` holding the
  text written to the constraint destination (`none` = no write).
* `getDirOfFile(project.path)` and `resolveResource` are external collaborators
  (Tauri APIs); they are passed in as the values `projectDir : String` and
  `rr : String → String`.
* The device pin catalog `devicePorts.FDP3P7` lives in `../utils/Pins`, which is
  not part of the sources under review; the two pin sequences are therefore
  parameters `inputPins outputPins : List String`, matching the specification's
  quantification over catalogs.
* Scanner loops driven by `regex.exec` advance `lastIndex` by at least one
  character per iteration, so they are written with a fuel argument initialised
  to `length + 1`, which can never be exhausted before the input is.
-/

/-- ASCII portion of the JavaScript regex class `\s`. -/
def isJsSpace (c : Char) : Bool :=
  c = ' ' || c = '\t' || c = '\n' || c = '\r' || c = Char.ofNat 11 || c = Char.ofNat 12

/-- The JavaScript regex class `\w`, i.e. `[A-Za-z0-9_]`. -/
def isJsWord (c : Char) : Bool :=
  (('a' ≤ c && c ≤ 'z') || ('A' ≤ c && c ≤ 'Z') || ('0' ≤ c && c ≤ '9') || c = '_')

/-- Substring test, as JavaScript `String.prototype.includes`. -/
def containsSub (needle : List Char) : List Char → Bool
  | [] => needle.isEmpty
  | c :: t => needle.isPrefixOf (c :: t) || containsSub needle t

/-- Split at the first occurrence of `needle`: returns the part before it and the
part after it.  This is how the lazy groups `([\s\S]*?)\);` and
`([\s\S]*?)endmodule` of the module regex behave: the lazy group always stops at
the first occurrence of the literal that follows it (if a later occurrence would
let the rest of the pattern match, the first one would too, since everything

after the group is again a lazy-anything). -/
def splitAtSub (needle : List Char) : List Char → Option (List Char × List Char)
  | [] => if needle.isEmpty then some ([], []) else none
  | c :: rest =>
    if needle.isPrefixOf (c :: rest) then some ([], (c :: rest).drop needle.length)
    else match splitAtSub needle rest with
      | some (b, a) => some (c :: b, a)
      | none => none

/-- Port direction, the string union `"input" | "output"` of the source. -/
inductive PortDir where
  | input : PortDir
  | output : PortDir
deriving DecidableEq, Repr

/-- One parsed port declaration: `{ name, direction, msb, lsb }`. -/
structure Port where
  name : String
  direction : PortDir
  msb : Nat
  lsb : Nat
deriving DecidableEq, Repr

/-- One match of the module regex
`/module\s+(_Z\d+\w+)\s*\(([\s\S]*?)\);([\s\S]*?)endmodule/g`:
captures 1 (name), 2 (port list text) and 3 (module body). -/
structure ModuleBlock where
  name : String
  portsText : String
  body : String
deriving DecidableEq, Repr

/-- Whether a maximal `\w+` run matches the capture `_Z\d+\w+`: the literal
`_Z`, at least one digit, and at least one further word character. -/
def isMangledName (s : String) : Bool :=
  match s.data with
  | '_' :: 'Z' :: c :: _ :: _ => c.isDigit
  | _ => false

/-- Value of `parseInt` on the digit-only captures `(\d+)`. -/
def digitsToNat (ds : List Char) : Nat :=
  ds.foldl (fun acc c => 10 * acc + (c.toNat - '0'.toNat)) 0

/-- Try to match the module regex at the current position.  The quantifier
choices of the JS engine are deterministic here: `\s+` and the name's `\w+` are
maximal runs (no shorter choice can ever satisfy the next token, since a word
character matches neither `\s` nor `(`), the name must satisfy `_Z\d+\w+`, and
the two lazy groups end at the first `);` resp. the first `endmodule` after it.
The `nameOk` parameter is the shape test on the module name; the source regex
uses `isMangledName`. -/
def matchModuleAt (nameOk : String → Bool) (l : List Char) : Option (ModuleBlock × List Char) :=
  if ("module".data).isPrefixOf l then
    let l1 := l.drop 6
    match l1 with
    | [] => none
    | c :: _ =>
      if !isJsSpace c then none
      else
        let l2 := l1.dropWhile isJsSpace
        let w := l2.takeWhile isJsWord
        if w.isEmpty then none
        else if nameOk ⟨w⟩ then
          match (l2.drop w.length).dropWhile isJsSpace with
          | '(' :: l4 =>
            match splitAtSub [')', ';'] l4 with
            | some (portsText, l5) =>
              match splitAtSub ("endmodule".data) l5 with
              | some (body, rest) => some (⟨⟨w⟩, ⟨portsText⟩, ⟨body⟩⟩, rest)
              | none => none
            | none => none
          | _ => none
        else none
  else none

/-- The `while ((match = moduleRegex.exec(content)) !== null)` loop: it yields
the regex matches left to right; between matches the engine advances the start
position one character at a time. -/
def scanModulesAux (nameOk : String → Bool) : Nat → List Char → List ModuleBlock
  | 0, _ => []
  | fuel + 1, l =>
    match matchModuleAt nameOk l with
    | some (mb, rest) => mb :: scanModulesAux nameOk fuel rest
    | none =>
      match l with
      | [] => []
      | _ :: rest => scanModulesAux nameOk fuel rest

/-- All matches of the module regex over the whole text, in order. -/
def findModules (nameOk : String → Bool) (content : String) : List ModuleBlock :=
  scanModulesAux nameOk (content.data.length + 1) content.data

/-- Shared tail of a port declaration: `(\w+)` has been read, `\s*;` remains. -/
def finishDecl (dir : PortDir) (nm : String) (msb lsb : Nat) (l : List Char) :
    Option (Port × List Char) :=
  match l.dropWhile isJsSpace with
  | ';' :: rest => some (⟨nm, dir, msb, lsb⟩, rest)
  | _ => none

/-- Try to match the port regex
`/(input|output)\s+(?:\[(\d+):(\d+)\]\s+)?(\w+)\s*;/g` at the current
position.  Again all quantifier choices are forced: maximal runs for `\s+`,
`\d+`, `\w+` (backtracking them can never help, since the following token
matches none of the dropped characters), and if the optional `[msb:lsb]` group
starts (`[` is present) but fails, the fallback `(\w+)` cannot match `[`, so
the whole attempt fails. -/
def matchPortAt (l : List Char) : Option (Port × List Char) :=
  let step := fun (dir : PortDir) (l1 : List Char) =>
    match l1 with
    | [] => (none : Option (Port × List Char))
    | c :: _ =>
      if !isJsSpace c then none
      else
        let l2 := l1.dropWhile isJsSpace
        match l2 with
        | '[' :: l3 =>
          let d1 := l3.takeWhile Char.isDigit
          if d1.isEmpty then none
          else
            match l3.drop d1.length with
            | ':' :: l4 =>
              let d2 := l4.takeWhile Char.isDigit
              if d2.isEmpty then none
              else
                match l4.drop d2.length with
                | ']' :: l5 =>
                  match l5 with
                  | [] => none
                  | c2 :: _ =>
                    if !isJsSpace c2 then none
                    else
                      let l6 := l5.dropWhile isJsSpace
                      let w := l6.takeWhile isJsWord
                      if w.isEmpty then none
                      else finishDecl dir ⟨w⟩ (digitsToNat d1) (digitsToNat d2) (l6.drop w.length)
                | _ => none
            | _ => none
        | _ =>
          let w := l2.takeWhile isJsWord
          if w.isEmpty then none
          else finishDecl dir ⟨w⟩ 0 0 (l2.drop w.length)
  if ("input".data).isPrefixOf l then step PortDir.input (l.drop 5)
  else if ("output".data).isPrefixOf l then step PortDir.output (l.drop 6)
  else none

/-- The `while ((portMatch = portRegex.exec(moduleBody)) !== null)` loop. -/
def scanPortsAux : Nat → List Char → List Port
  | 0, _ => []
  | fuel + 1, l =>
    match matchPortAt l with
    | some (p, rest) => p :: scanPortsAux fuel rest
    | none =>
      match l with
      | [] => []
      | _ :: rest => scanPortsAux fuel rest

/-- All port declarations found in a module body, in textual order. -/
def findPorts (body : String) : List Port :=
  scanPortsAux (body.data.length + 1) body.data

/-- ASCII case lowering, as `String.prototype.toLowerCase` acts on the
identifiers involved here. -/
def lowerChar (c : Char) : Char :=
  if 'A' ≤ c && c ≤ 'Z' then Char.ofNat (c.toNat + 32) else c

/-- `moduleName.toLowerCase().includes(needle.toLowerCase())`. -/
def containsCI (hay needle : String) : Bool :=
  containsSub (needle.data.map lowerChar) (hay.data.map lowerChar)

/-- Result record `{ moduleName, ports }` of `parseHLSVerilogPorts`. -/
structure ParseResult where
  moduleName : String
  ports : List Port
deriving DecidableEq, Repr

/-- `parseHLSVerilogPorts` (src/unnamed/part_000, lines 237–277), applied to the
text the code would read from the Verilog file: iterate the module-regex
matches in order and return name and parsed ports of the first whose name
contains the top-function name case-insensitively; `none` when no match
qualifies. -/
def parseHLSVerilogPorts (content topFunctionName : String) : Option ParseResult :=
  match (findModules isMangledName content).find? (fun mb => containsCI mb.name topFunctionName) with
  | some mb => some ⟨mb.name, findPorts mb.body⟩
  | none => none

/-- Modelled from the spec: `extractTopModule` as §4.2 words it — scan all
`module <name> ( <ports> ) ... endmodule` blocks, with no shape restriction on
`<name>`, and select the first whose name contains the target function name
case-insensitively.  This is the comparison point for claim C1; the code's
module regex additionally requires the mangled shape `_Z\d+\w+`. -/
def extractTopModuleSpec (content targetFunctionName : String) : Option ParseResult :=
  match (findModules (fun s => !s.isEmpty) content).find? (fun mb => containsCI mb.name targetFunctionName) with
  | some mb => some ⟨mb.name, findPorts mb.body⟩
  | none => none

/-- One generated constraint entry: the port-instance name (scalar name or
`name[i]`), the device pin placed on it, and the direction whose catalog
sequence the pin was taken from. -/
structure PinAssignment where
  portInstance : String
  pin : String
  direction : PortDir
deriving DecidableEq, Repr

/-- `assignPin` (lines 329–337): pull the next pin of the requested direction,
advancing that direction's index; `none` when the sequence is exhausted.  The
state is the pair `(inputIdx, outputIdx)`. -/
def assignPin (dir : PortDir) (inputPins outputPins : List String) (st : Nat × Nat) :
    Option (String × (Nat × Nat)) :=
  match dir with
  | PortDir.input =>
    if h : st.1 < inputPins.length then some (inputPins.get ⟨st.1, h⟩, (st.1 + 1, st.2)) else none
  | PortDir.output =>
    if h : st.2 < outputPins.length then some (outputPins.get ⟨st.2, h⟩, (st.1, st.2 + 1)) else none

/-- The bus-expansion inner loop (lines 351–361): one assignment named
`name[i]` per index, each drawing a pin via `assignPin`; the first exhaustion
aborts the whole run (`return null`). -/
def allocBus (nm : String) (dir : PortDir) (inputPins outputPins : List String) :
    List Nat → Nat × Nat → Option (List PinAssignment × (Nat × Nat))
  | [], st => some ([], st)
  | i :: rest, st =>
    match assignPin dir inputPins outputPins st with
    | none => none
    | some (pin, st1) =>
      match allocBus nm dir inputPins outputPins rest st1 with
      | none => none
      | some (tail, st2) => some (⟨nm ++ "[" ++ Nat.repr i ++ "]", pin, dir⟩ :: tail, st2)

/-- The allocation loop over ports (lines 339–373): skip ports named exactly
`clock`; expand a bus port (`msb !== lsb`) over indices `min..max` ascending;
otherwise assign a single pin; any exhaustion returns `null`, discarding all
assignments made so far. -/
def allocPorts (inputPins outputPins : List String) :
    List Port → Nat × Nat → Option (List PinAssignment × (Nat × Nat))
  | [], st => some ([], st)
  | p :: ps, st =>
    if p.name = "clock" then allocPorts inputPins outputPins ps st
    else if p.msb ≠ p.lsb then
      match allocBus p.name p.direction inputPins outputPins
          (List.range' (min p.msb p.lsb) (max p.msb p.lsb + 1 - min p.msb p.lsb)) st with
      | none => none
      | some (as1, st1) =>
        match allocPorts inputPins outputPins ps st1 with
        | none => none
        | some (as2, st2) => some (as1 ++ as2, st2)
    else
      match assignPin p.direction inputPins outputPins st with
      | none => none
      | some (pin, st1) =>
        match allocPorts inputPins outputPins ps st1 with
        | none => none
        | some (as2, st2) => some (⟨p.name, pin, p.direction⟩ :: as2, st2)

/-- One line pushed onto `portConstraints`. -/
def xmlPortLine (nm pin : String) : String :=
  "  <port name=\"" ++ nm ++ "\" position=\"" ++ pin ++ "\"/>"

/-- The `xmlContent` template literal (lines 375–377). -/
def mkXmlContent (moduleName : String) (portConstraints : List String) : String :=
  "<design name=\"" ++ moduleName ++ "\">\n" ++ String.intercalate "\n" portConstraints
    ++ "\n</design>"

/-- One entry of `project.file_lists`. -/
structure FileRecord where
  name : String
  path : String
  type : String
deriving DecidableEq, Repr

/-- `project.settings.bambu` (optional record with optional fields). -/
structure BambuSettings where
  topFunction : Option String
  clockPeriod : Option Nat
deriving DecidableEq, Repr

/-- `project.settings.place`. -/
structure PlaceSettings where
  mode : String
deriving DecidableEq, Repr

/-- `project.settings.route`. -/
structure RouteSettings where
  mode : String
deriving DecidableEq, Repr

/-- `project.settings`. -/
structure Settings where
  bambu : Option BambuSettings
  place : PlaceSettings
  route : RouteSettings
deriving DecidableEq, Repr

/-- The fields of `ProjectInfo` this core reads. -/
structure ProjectInfo where
  name : String
  path : String
  file_lists : List FileRecord
  settings : Settings
deriving DecidableEq, Repr

/-- The file-system state the constraint generator consults: the two
`exists(...)` queries and the content `readTextFile` would return for the
HLS-generated Verilog file. -/
structure FsModel where
  constraintFileExists : Bool
  verilogFileExists : Bool
  verilogContent : String
deriving DecidableEq, Repr

/-- A command descriptor handed to the external executor:
`Command.sidecar(executable, args, { cwd })`. -/
structure CommandDescriptor where
  executable : String
  args : List String
  cwd : String
deriving DecidableEq, Repr

/-- `project.settings.bambu?.topFunction || "main"` — JavaScript `||` treats a
missing field and the empty string alike. -/
def resolvedTopFunction (proj : ProjectInfo) : String :=
  match proj.settings.bambu with
  | none => "main"
  | some b =>
    match b.topFunction with
    | none => "main"
    | some t => if t = "" then "main" else t

/-- `stripCppExt`: the `replace(/\.(cpp|cc|cxx|c)$/i, "")` applied to the source
file name; the regex can only match a suffix, so it strips exactly one of the
four extensions, case-insensitively. -/
def stripCppExt (s : String) : String :=
  if s.toLower.endsWith ".cpp" then s.dropRight 4
  else if s.toLower.endsWith ".cxx" then s.dropRight 4
  else if s.toLower.endsWith ".cc" then s.dropRight 3
  else if s.toLower.endsWith ".c" then s.dropRight 2
  else s

/-- Name of the Verilog file the HLS stage leaves behind, `<source-base>.v`.
Derived in the source at lines 149–150 (synthesis) and 298–299 (constraint
generation); that the external Bambu binary indeed writes its output under
this name is modelled from the spec (§6), the tool being outside the repo. -/
def hlsOutputFileName (sourceFileName : String) : String :=
  stripCppExt sourceFileName ++ ".v"

/-- `generateBambuConstraintFile` (lines 280–382).  Returns the value the
function would return (the constraint path, or `none` for the `null` failure
cases) paired with the text written to the constraint destination (`none` when
`writeTextFile` is never reached). -/
def generateBambuConstraintFile (proj : ProjectInfo) (projectDir : String)
    (inputPins outputPins : List String) (fs : FsModel) :
    Option String × Option String :=
  let constraintFilePath := projectDir ++ (proj.name ++ "_bambu_cons.xml")
  if fs.constraintFileExists then (some constraintFilePath, none)
  else
    match proj.file_lists.find? (fun fl => fl.type == "cpp" || fl.type == "c") with
    | none => (none, none)
    | some _cppFile =>
      if !fs.verilogFileExists then (none, none)
      else
        match parseHLSVerilogPorts fs.verilogContent (resolvedTopFunction proj) with
        | none => (none, none)
        | some pr =>
          match allocPorts inputPins outputPins pr.ports (0, 0) with
          | none => (none, none)
          | some (asg, _) =>
            (some constraintFilePath,
             some (mkXmlContent pr.moduleName (asg.map (fun a => xmlPortLine a.portInstance a.pin))))

/-- `runBambuSynthFlowCommand` (lines 128–170). -/
def runBambuSynthFlowCommand (proj : ProjectInfo) (projectDir : String)
    (rr : String → String) : Option CommandDescriptor :=
  match proj.file_lists.find? (fun fl => fl.type == "cpp" || fl.type == "c") with
  | none => none
  | some cppFile =>
    let tclLine :=
      "tcl " ++ rr "resource/yosys/yosys_fde.tcl"
        ++ " -l " ++ rr "resource/yosys/fdesimlib.v"
        ++ " -m " ++ rr "resource/yosys/techmap.v"
        ++ " -c " ++ rr "resource/yosys/cells_map.v"
        ++ " -o " ++ (proj.name ++ "_bambu_" ++ "syn.edf")
    some { executable := "binaries/yosys"
           args := ["-p", tclLine, projectDir ++ hlsOutputFileName cppFile.name]
           cwd := projectDir }

/-- `runBambuMapFlowCommand` (lines 173–195). -/
def runBambuMapFlowCommand (proj : ProjectInfo) (projectDir : String)
    (rr : String → String) : CommandDescriptor :=
  { executable := "binaries/fde-cli/map"
    args := ["-y",
             "-i", proj.name ++ "_bambu_" ++ "syn.edf",
             "-o", proj.name ++ "_bambu_" ++ "map.xml",
             "-c", rr "resource/hw_lib/dc_cell.xml",
             "-e"]
    cwd := projectDir }

/-- `runBambuPackFlowCommand` (lines 198–234). -/
def runBambuPackFlowCommand (proj : ProjectInfo) (projectDir : String)
    (rr : String → String) : CommandDescriptor :=
  { executable := "binaries/fde-cli/pack"
    args := ["-c", "fdp3",
             "-n", proj.name ++ "_bambu_" ++ "map.xml",
             "-l", rr "resource/hw_lib/fdp3_cell.xml",
             "-r", rr "resource/hw_lib/fdp3_dcplib.xml",
             "-o", proj.name ++ "_bambu_" ++ "pack.xml",
             "-g", rr "resource/hw_lib/fdp3_config.xml",
             "-e"]
    cwd := projectDir }

/-- `getPlaceMode` (lines 437–443). -/
def getPlaceMode (proj : ProjectInfo) : String :=
  if proj.settings.place.mode = "Bounding Box" then "-b" else "-t"

/-- `getRouteMode` (lines 532–540). -/
def getRouteMode (proj : ProjectInfo) : String :=
  if proj.settings.route.mode = "Direct Search" then "-d"
  else if proj.settings.route.mode = "Breath First" then "-b"
  else "-t"

/-- The placement `Command.sidecar` call (lines 449–466), for a given
constraint-file path. -/
def mkPlaceCommand (proj : ProjectInfo) (projectDir : String) (rr : String → String)
    (cstPath : String) : CommandDescriptor :=
  { executable := "binaries/fde-cli/place"
    args := ["-a", rr "resource/hw_lib/fdp3p7_arch.xml",
             "-d", rr "resource/hw_lib/fdp3p7_dly.xml",
             "-i", proj.name ++ "_bambu_" ++ "pack.xml",
             "-o", proj.name ++ "_bambu_" ++ "place.xml",
             "-c", cstPath,
             getPlaceMode proj,
             "-e"]
    cwd := projectDir }

/-- The branch of `runBambuPlaceFlowCommand` that auto-generates the constraint
file (lines 425–435): the generated path is re-tested for JS truthiness before
use. -/
def runBambuPlaceAutoGen (proj : ProjectInfo) (projectDir : String) (rr : String → String)
    (inputPins outputPins : List String) (fs : FsModel) :
    Option CommandDescriptor × Option String :=
  match generateBambuConstraintFile proj projectDir inputPins outputPins fs with
  | (some p, w) =>
    if p = "" then (none, w) else (some (mkPlaceCommand proj projectDir rr p), w)
  | (none, w) => (none, w)

/-- `runBambuPlaceFlowCommand` (lines 414–469).  `filter(...)[0]?.path` is
tested with JS truthiness (`!placecstFilePath`), so a missing record and an
empty path string both fall through to auto-generation. -/
def runBambuPlaceFlowCommand (proj : ProjectInfo) (projectDir : String) (rr : String → String)
    (inputPins outputPins : List String) (fs : FsModel) :
    Option CommandDescriptor × Option String :=
  match (proj.file_lists.filter (fun fl => fl.type == "constraint")).head? with
  | some fl =>
    if fl.path = "" then runBambuPlaceAutoGen proj projectDir rr inputPins outputPins fs
    else (some (mkPlaceCommand proj projectDir rr fl.path), none)
  | none => runBambuPlaceAutoGen proj projectDir rr inputPins outputPins fs

/-- The routing `Command.sidecar` call (lines 566–581), for a given
constraint-file path. -/
def mkRouteCommand (proj : ProjectInfo) (projectDir : String) (rr : String → String)
    (cstPath : String) : CommandDescriptor :=
  { executable := "binaries/fde-cli/route"
    args := ["-a", rr "resource/hw_lib/fdp3p7_arch.xml",
             "-n", proj.name ++ "_bambu_" ++ "place.xml",
             "-o", proj.name ++ "_bambu_" ++ "route.xml",
             getRouteMode proj,
             "-c", cstPath,
             "-e"]
    cwd := projectDir }

/-- `runBambuRouteFlowCommand` (lines 530–584).  Like the placement stage it
prefers a declared (JS-truthy) constraint path; otherwise it only probes the
previously auto-generated `<project>_bambu_cons.xml` for existence — it never
calls the generator, and it never writes. -/
def runBambuRouteFlowCommand (proj : ProjectInfo) (projectDir : String) (rr : String → String)
    (fs : FsModel) : Option CommandDescriptor × Option String :=
  let fallback : Option CommandDescriptor × Option String :=
    if fs.constraintFileExists then
      (some (mkRouteCommand proj projectDir rr (projectDir ++ proj.name ++ "_bambu_cons.xml")), none)
    else (none, none)
  match (proj.file_lists.filter (fun fl => fl.type == "constraint")).head? with
  | some fl => if fl.path = "" then fallback else (some (mkRouteCommand proj projectDir rr fl.path), none)
  | none => fallback

/-- `runBambuGenBitFlowCommand` (lines 587–611). -/
def runBambuGenBitFlowCommand (proj : ProjectInfo) (projectDir : String)
    (rr : String → String) : CommandDescriptor :=
  { executable := "binaries/fde-cli/bitgen"
    args := ["-a", rr "resource/hw_lib/fdp3p7_arch.xml",
             "-c", rr "resource/hw_lib/fdp3p7_cil.xml",
             "-n", proj.name ++ "_bambu_" ++ "route.xml",
             "-b", proj.name ++ "_bambu_" ++ "bit.bit",
             "-e"]
    cwd := projectDir }

/-! Helper definitions and lemmas about the allocation loop. -/

/-- Whether an assignment drew from the input sequence. -/
def isInputA (a : PinAssignment) : Bool :=
  match a.direction with
  | PortDir.input => true
  | PortDir.output => false

/-- Pins of the input-direction assignments, in order. -/
def inputPinsUsed (asg : List PinAssignment) : List String :=
  (asg.filter isInputA).map PinAssignment.pin

/-- Pins of the output-direction assignments, in order. -/
def outputPinsUsed (asg : List PinAssignment) : List String :=
  (asg.filter (fun a => !isInputA a)).map PinAssignment.pin

lemma listTakeAdd {α : Type} (l : List α) (m n : Nat) :
    l.take (m + n) = l.take m ++ (l.drop m).take n := by
  induction m generalizing l with
  | zero => simp
  | succ k ih =>
    cases l with
    | nil => simp
    | cons a t => rw [Nat.succ_add]; simp [ih]

lemma sliceGlue {α : Type} (l : List α) (a b c : Nat) (h1 : a ≤ b) (h2 : b ≤ c) :
    (l.drop a).take (b - a) ++ (l.drop b).take (c - b) = (l.drop a).take (c - a) := by
  have hc : c - a = (b - a) + (c - b) := by omega
  rw [hc, listTakeAdd, List.drop_drop]
  have hb : a + (b - a) = b := by omega
  rw [hb]

lemma assignPin_input {ip op : List String} {i o : Nat} {pin : String} {st' : Nat × Nat}
    (h : assignPin PortDir.input ip op (i, o) = some (pin, st')) :
    ∃ hlt : i < ip.length, pin = ip.get ⟨i, hlt⟩ ∧ st' = (i + 1, o) := by
  simp only [assignPin] at h
  split at h
  · rename_i hlt
    simp only [Option.some.injEq, Prod.mk.injEq] at h
    exact ⟨hlt, h.1.symm, h.2.symm⟩
  · simp at h

lemma assignPin_output {ip op : List String} {i o : Nat} {pin : String} {st' : Nat × Nat}
    (h : assignPin PortDir.output ip op (i, o) = some (pin, st')) :
    ∃ hlt : o < op.length, pin = op.get ⟨o, hlt⟩ ∧ st' = (i, o + 1) := by
  simp only [assignPin] at h
  split at h
  · rename_i hlt
    simp only [Option.some.injEq, Prod.mk.injEq] at h
    exact ⟨hlt, h.1.symm, h.2.symm⟩
  · simp at h

lemma allocBus_pins {nm : String} {dir : PortDir} {ip op : List String} {idxs : List Nat}
    {i o i' o' : Nat} {asg : List PinAssignment}
    (hi : i ≤ ip.length) (ho : o ≤ op.length)
    (h : allocBus nm dir ip op idxs (i, o) = some (asg, (i', o'))) :
    i ≤ i' ∧ i' ≤ ip.length ∧ o ≤ o' ∧ o' ≤ op.length ∧
    inputPinsUsed asg = (ip.drop i).take (i' - i) ∧
    outputPinsUsed asg = (op.drop o).take (o' - o) := by
  induction idxs generalizing i o asg with
  | nil =>
    simp only [allocBus, Option.some.injEq, Prod.mk.injEq] at h
    obtain ⟨h1, h2, h3⟩ := h
    subst h1; subst h2; subst h3
    simp [inputPinsUsed, outputPinsUsed, hi, ho]
  | cons k rest ih =>
    simp only [allocBus] at h
    cases hap : assignPin dir ip op (i, o) with
    | none => simp [hap] at h
    | some po =>
      obtain ⟨pin, st1⟩ := po
      simp only [hap] at h
      cases hab : allocBus nm dir ip op rest st1 with
      | none => simp [hab] at h
      | some r =>
        obtain ⟨tail, i2, o2⟩ := r
        simp only [hab, Option.some.injEq, Prod.mk.injEq] at h
        obtain ⟨hasg, hi2, ho2⟩ := h
        subst hi2; subst ho2
        cases dir with
        | input =>
          obtain ⟨hlt, hpin, hst1⟩ := assignPin_input hap
          subst hst1; subst hpin
          obtain ⟨hb1, hb2, hb3, hb4, hb5, hb6⟩ := ih (by omega) ho hab
          refine ⟨by omega, hb2, hb3, hb4, ?_, ?_⟩
          · rw [← hasg]
            have e1 : inputPinsUsed (⟨nm ++ "[" ++ Nat.repr k ++ "]", ip.get ⟨i, hlt⟩, PortDir.input⟩ :: tail)
                = ip.get ⟨i, hlt⟩ :: inputPinsUsed tail := by
              simp [inputPinsUsed, isInputA, List.filter_cons]
            rw [e1, hb5, List.drop_eq_getElem_cons hlt]
            have e2 : i2 - i = (i2 - (i + 1)) + 1 := by omega
            rw [e2, List.take_succ_cons]
            simp
          · rw [← hasg]
            have e1 : outputPinsUsed (⟨nm ++ "[" ++ Nat.repr k ++ "]", ip.get ⟨i, hlt⟩, PortDir.input⟩ :: tail)
                = outputPinsUsed tail := by
              simp [outputPinsUsed, isInputA, List.filter_cons]
            rw [e1, hb6]
        | output =>
          obtain ⟨hlt, hpin, hst1⟩ := assignPin_output hap
          subst hst1; subst hpin
          obtain ⟨hb1, hb2, hb3, hb4, hb5, hb6⟩ := ih hi (by omega) hab
          refine ⟨hb1, hb2, by omega, hb4, ?_, ?_⟩
          · rw [← hasg]
            have e1 : inputPinsUsed (⟨nm ++ "[" ++ Nat.repr k ++ "]", op.get ⟨o, hlt⟩, PortDir.output⟩ :: tail)
                = inputPinsUsed tail := by
              simp [inputPinsUsed, isInputA, List.filter_cons]
            rw [e1, hb5]
          · rw [← hasg]
            have e1 : outputPinsUsed (⟨nm ++ "[" ++ Nat.repr k ++ "]", op.get ⟨o, hlt⟩, PortDir.output⟩ :: tail)
                = op.get ⟨o, hlt⟩ :: outputPinsUsed tail := by
              simp [outputPinsUsed, isInputA, List.filter_cons]
            rw [e1, hb6, List.drop_eq_getElem_cons hlt]
            have e2 : o2 - o = (o2 - (o + 1)) + 1 := by omega
            rw [e2, List.take_succ_cons]
            simp

lemma allocBus_shape {nm : String} {dir : PortDir} {ip op : List String} {idxs : List Nat}
    {st st' : Nat × Nat} {asg : List PinAssignment}
    (h : allocBus nm dir ip op idxs st = some (asg, st')) :
    asg.map PinAssignment.portInstance = idxs.map (fun k => nm ++ "[" ++ Nat.repr k ++ "]")
    ∧ asg.length = idxs.length
    ∧ ∀ a ∈ asg, a.direction = dir := by
  induction idxs generalizing st asg with
  | nil =>
    simp only [allocBus, Option.some.injEq, Prod.mk.injEq] at h
    obtain ⟨h1, -⟩ := h
    subst h1
    simp
  | cons k rest ih =>
    simp only [allocBus] at h
    cases hap : assignPin dir ip op st with
    | none => simp [hap] at h
    | some po =>
      obtain ⟨pin, st1⟩ := po
      simp only [hap] at h
      cases hab : allocBus nm dir ip op rest st1 with
      | none => simp [hab] at h
      | some r =>
        obtain ⟨tail, st2⟩ := r
        simp only [hab, Option.some.injEq, Prod.mk.injEq] at h
        obtain ⟨hasg, hst2⟩ := h
        subst hst2
        obtain ⟨e1, e2, e3⟩ := ih hab
        refine ⟨?_, ?_, ?_⟩
        · rw [← hasg]; simp [e1]
        · rw [← hasg]; simp [e2]
        · rw [← hasg]
          intro a ha
          rcases List.mem_cons.mp ha with h' | h'
          · subst h'; rfl
          · exact e3 a h'

lemma allocPorts_pins {ports : List Port} {ip op : List String}
    {i o i' o' : Nat} {asg : List PinAssignment}
    (hi : i ≤ ip.length) (ho : o ≤ op.length)
    (h : allocPorts ip op ports (i, o) = some (asg, (i', o'))) :
    i ≤ i' ∧ i' ≤ ip.length ∧ o ≤ o' ∧ o' ≤ op.length ∧
    inputPinsUsed asg = (ip.drop i).take (i' - i) ∧
    outputPinsUsed asg = (op.drop o).take (o' - o) := by
  induction ports generalizing i o asg with
  | nil =>
    simp only [allocPorts, Option.some.injEq, Prod.mk.injEq] at h
    obtain ⟨h1, h2, h3⟩ := h
    subst h1; subst h2; subst h3
    simp [inputPinsUsed, outputPinsUsed, hi, ho]
  | cons p ps ih =>
    rw [allocPorts] at h
    by_cases hc : p.name = "clock"
    · rw [if_pos hc] at h
      exact ih hi ho h
    · rw [if_neg hc] at h
      by_cases hb : p.msb ≠ p.lsb
      · rw [if_pos hb] at h
        cases hab : allocBus p.name p.direction ip op
            (List.range' (min p.msb p.lsb) (max p.msb p.lsb + 1 - min p.msb p.lsb)) (i, o) with
        | none => simp [hab] at h
        | some r1 =>
          obtain ⟨as1, i1, o1⟩ := r1
          simp only [hab] at h
          cases hrec : allocPorts ip op ps (i1, o1) with
          | none => simp [hrec] at h
          | some r2 =>
            obtain ⟨as2, i2, o2⟩ := r2
            simp only [hrec, Option.some.injEq, Prod.mk.injEq] at h
            obtain ⟨hasg, hi2, ho2⟩ := h
            subst hi2; subst ho2
            obtain ⟨ha1, ha2, ha3, ha4, ha5, ha6⟩ := allocBus_pins hi ho hab
            obtain ⟨hp1, hp2, hp3, hp4, hp5, hp6⟩ := ih ha2 ha4 hrec
            refine ⟨by omega, hp2, by omega, hp4, ?_, ?_⟩
            · rw [← hasg]
              have e1 : inputPinsUsed (as1 ++ as2) = inputPinsUsed as1 ++ inputPinsUsed as2 := by
                simp [inputPinsUsed]
              rw [e1, ha5, hp5, sliceGlue ip i i1 i2 ha1 hp1]
            · rw [← hasg]
              have e1 : outputPinsUsed (as1 ++ as2) = outputPinsUsed as1 ++ outputPinsUsed as2 := by
                simp [outputPinsUsed]
              rw [e1, ha6, hp6, sliceGlue op o o1 o2 ha3 hp3]
      · rw [if_neg hb] at h
        cases hap : assignPin p.direction ip op (i, o) with
        | none => simp [hap] at h
        | some po =>
          obtain ⟨pin, st1⟩ := po
          simp only [hap] at h
          cases hrec : allocPorts ip op ps st1 with
          | none => simp [hrec] at h
          | some r2 =>
            obtain ⟨as2, i2, o2⟩ := r2
            simp only [hrec, Option.some.injEq, Prod.mk.injEq] at h
            obtain ⟨hasg, hi2, ho2⟩ := h
            subst hi2; subst ho2
            cases hd : p.direction with
            | input =>
              rw [hd] at hap
              obtain ⟨hlt, hpin, hst1⟩ := assignPin_input hap
              subst hst1; subst hpin
              obtain ⟨hp1, hp2, hp3, hp4, hp5, hp6⟩ := ih (by omega) ho hrec
              refine ⟨by omega, hp2, hp3, hp4, ?_, ?_⟩
              · rw [← hasg]
                have e1 : inputPinsUsed (⟨p.name, ip.get ⟨i, hlt⟩, p.direction⟩ :: as2)
                    = ip.get ⟨i, hlt⟩ :: inputPinsUsed as2 := by
                  simp [inputPinsUsed, isInputA, List.filter_cons, hd]
                rw [e1, hp5, List.drop_eq_getElem_cons hlt]
                have e2 : i2 - i = (i2 - (i + 1)) + 1 := by omega
                rw [e2, List.take_succ_cons]
                simp
              · rw [← hasg]
                have e1 : outputPinsUsed (⟨p.name, ip.get ⟨i, hlt⟩, p.direction⟩ :: as2)
                    = outputPinsUsed as2 := by
                  simp [outputPinsUsed, isInputA, List.filter_cons, hd]
                rw [e1, hp6]
            | output =>
              rw [hd] at hap
              obtain ⟨hlt, hpin, hst1⟩ := assignPin_output hap
              subst hst1; subst hpin
              obtain ⟨hp1, hp2, hp3, hp4, hp5, hp6⟩ := ih hi (by omega) hrec
              refine ⟨hp1, hp2, by omega, hp4, ?_, ?_⟩
              · rw [← hasg]
                have e1 : inputPinsUsed (⟨p.name, op.get ⟨o, hlt⟩, p.direction⟩ :: as2)
                    = inputPinsUsed as2 := by
                  simp [inputPinsUsed, isInputA, List.filter_cons, hd]
                rw [e1, hp5]
              · rw [← hasg]
                have e1 : outputPinsUsed (⟨p.name, op.get ⟨o, hlt⟩, p.direction⟩ :: as2)
                    = op.get ⟨o, hlt⟩ :: outputPinsUsed as2 := by
                  simp [outputPinsUsed, isInputA, List.filter_cons, hd]
                rw [e1, hp6, List.drop_eq_getElem_cons hlt]
                have e2 : o2 - o = (o2 - (o + 1)) + 1 := by omega
                rw [e2, List.take_succ_cons]
                simp

lemma mergeNodup (asg : List PinAssignment)
    (h1 : (inputPinsUsed asg).Nodup) (h2 : (outputPinsUsed asg).Nodup)
    (hd : ∀ x ∈ inputPinsUsed asg, x ∉ outputPinsUsed asg) :
    (asg.map PinAssignment.pin).Nodup := by
  have hperm : ((asg.filter isInputA ++ asg.filter (fun a => !isInputA a)).map PinAssignment.pin).Perm
      (asg.map PinAssignment.pin) :=
    (List.filter_append_perm isInputA asg).map _
  rw [List.map_append] at hperm
  refine hperm.nodup ?_
  rw [List.nodup_append]
  exact ⟨h1, h2, hd⟩

/-- Every branch of the generator either returns the deterministic constraint
path or the total failure `(none, none)`; in particular a failed run never
writes. -/
lemma generate_shape (proj : ProjectInfo) (projectDir : String)
    (inputPins outputPins : List String) (fs : FsModel) :
    (generateBambuConstraintFile proj projectDir inputPins outputPins fs).1
        = some (projectDir ++ (proj.name ++ "_bambu_cons.xml"))
    ∨ generateBambuConstraintFile proj projectDir inputPins outputPins fs = (none, none) := by
  unfold generateBambuConstraintFile
  split
  · left; rfl
  · split
    · right; rfl
    · split
      · right; rfl
      · split
        · right; rfl
        · split
          · right; rfl
          · left; rfl

/-- Shared sample data for the concrete witness runs. -/
def sampleVerilog : String :=
  "module _Z3foo (a, b, c);\ninput a;\ninput b;\ninput c;\nendmodule"

/-- A minimal sample project: one C++ source, no declared constraint file,
top function `foo`. -/
def sampleProj : ProjectInfo :=
  ⟨"p", "D/p.prj", [⟨"t.cpp", "D/t.cpp", "cpp"⟩],
   ⟨some ⟨some "foo", none⟩, ⟨"Timing Driven"⟩, ⟨"Breath First"⟩⟩⟩

/-- C5: a port named exactly `clock` produces no pin assignment and consumes no
pin, regardless of direction or width; the remaining ports are processed as if
it were absent. -/
theorem c5_clock_skip (p : Port) (ps : List Port) (inputPins outputPins : List String)
    (st : Nat × Nat) (h : p.name = "clock") :
    allocPorts inputPins outputPins (p :: ps) st = allocPorts inputPins outputPins ps st := by
  rw [allocPorts, if_pos h]

theorem c5_clock_skip_witness :
    (⟨"clock", PortDir.output, 31, 0⟩ : Port).name = "clock"
    ∧ allocPorts ["P1"] ["Q1"] [⟨"clock", PortDir.output, 31, 0⟩, ⟨"a", PortDir.input, 0, 0⟩] (0, 0)
      = allocPorts ["P1"] ["Q1"] [⟨"a", PortDir.input, 0, 0⟩] (0, 0) :=
  ⟨rfl, c5_clock_skip _ _ _ _ _ rfl⟩

/-- C9: the placement command's mode flag (argument 10) is `-b` exactly for
`"Bounding Box"` and `-t` for every other settings value; the routing command's
mode flag (argument 6) is `-d` for `"Direct Search"`, `-b` for
`"Breath First"`, `-t` otherwise. -/
theorem c9_mode_flags (proj : ProjectInfo) (projectDir : String) (rr : String → String)
    (cstPath : String) :
    (proj.settings.place.mode = "Bounding Box" →
        (mkPlaceCommand proj projectDir rr cstPath).args.get? 10 = some "-b")
    ∧ (proj.settings.place.mode ≠ "Bounding Box" →
        (mkPlaceCommand proj projectDir rr cstPath).args.get? 10 = some "-t")
    ∧ (proj.settings.route.mode = "Direct Search" →
        (mkRouteCommand proj projectDir rr cstPath).args.get? 6 = some "-d")
    ∧ (proj.settings.route.mode = "Breath First" →
        (mkRouteCommand proj projectDir rr cstPath).args.get? 6 = some "-b")
    ∧ (proj.settings.route.mode ≠ "Direct Search" → proj.settings.route.mode ≠ "Breath First" →
        (mkRouteCommand proj projectDir rr cstPath).args.get? 6 = some "-t") := by
  refine ⟨?_, ?_, ?_, ?_, ?_⟩
  · intro h; simp [mkPlaceCommand, getPlaceMode, h]
  · intro h; simp [mkPlaceCommand, getPlaceMode, h]
  · intro h; simp [mkRouteCommand, getRouteMode, h]
  · intro h
    have h2 : proj.settings.route.mode ≠ "Direct Search" := by rw [h]; decide
    simp [mkRouteCommand, getRouteMode, h, h2]
  · intro h1 h2; simp [mkRouteCommand, getRouteMode, h1, h2]

theorem c9_mode_flags_witness :
    (mkPlaceCommand ⟨"p", "", [], ⟨none, ⟨"Bounding Box"⟩, ⟨"Direct Search"⟩⟩⟩ "D/" (fun s => s) "c.xml").args.get? 10 = some "-b"
    ∧ (mkPlaceCommand ⟨"p", "", [], ⟨none, ⟨"Timing Driven"⟩, ⟨"Breath First"⟩⟩⟩ "D/" (fun s => s) "c.xml").args.get? 10 = some "-t"
    ∧ (mkRouteCommand ⟨"p", "", [], ⟨none, ⟨"Bounding Box"⟩, ⟨"Direct Search"⟩⟩⟩ "D/" (fun s => s) "c.xml").args.get? 6 = some "-d"
    ∧ (mkRouteCommand ⟨"p", "", [], ⟨none, ⟨"Timing Driven"⟩, ⟨"Breath First"⟩⟩⟩ "D/" (fun s => s) "c.xml").args.get? 6 = some "-b"
    ∧ (mkRouteCommand ⟨"p", "", [], ⟨none, ⟨"Timing Driven"⟩, ⟨"Timing Driven"⟩⟩⟩ "D/" (fun s => s) "c.xml").args.get? 6 = some "-t" :=
  ⟨(c9_mode_flags _ "D/" _ "c.xml").1 rfl,
   (c9_mode_flags _ "D/" _ "c.xml").2.1 (by decide),
   (c9_mode_flags _ "D/" _ "c.xml").2.2.1 rfl,
   (c9_mode_flags _ "D/" _ "c.xml").2.2.2.1 rfl,
   (c9_mode_flags _ "D/" _ "c.xml").2.2.2.2 (by decide) (by decide)⟩

/-- C10: the route command builder never writes anything (in particular it
never triggers constraint auto-generation); with no file tagged `constraint`
it uses the auto-generated path exactly when that file exists, and otherwise
fails with no command descriptor. -/
theorem c10_route_no_generation (proj : ProjectInfo) (projectDir : String)
    (rr : String → String) (fs : FsModel) :
    ((runBambuRouteFlowCommand proj projectDir rr fs).2 = none)
    ∧ ((proj.file_lists.filter (fun fl => fl.type == "constraint")) = [] →
        fs.constraintFileExists = true →
        runBambuRouteFlowCommand proj projectDir rr fs
          = (some (mkRouteCommand proj projectDir rr (projectDir ++ proj.name ++ "_bambu_cons.xml")), none))
    ∧ ((proj.file_lists.filter (fun fl => fl.type == "constraint")) = [] →
        fs.constraintFileExists = false →
        runBambuRouteFlowCommand proj projectDir rr fs = (none, none)) := by
  refine ⟨?_, ?_, ?_⟩
  · cases hfl : (proj.file_lists.filter (fun fl => fl.type == "constraint")).head? with
    | none =>
      by_cases hex : fs.constraintFileExists <;>
        simp [runBambuRouteFlowCommand, hfl, hex]
    | some fl =>
      by_cases hp : fl.path = "" <;> by_cases hex : fs.constraintFileExists <;>
        simp [runBambuRouteFlowCommand, hfl, hp, hex]
  · intro h1 h2
    have hfl : (proj.file_lists.filter (fun fl => fl.type == "constraint")).head? = none := by
      rw [h1]; rfl
    simp [runBambuRouteFlowCommand, hfl, h2]
  · intro h1 h2
    have hfl : (proj.file_lists.filter (fun fl => fl.type == "constraint")).head? = none := by
      rw [h1]; rfl
    simp [runBambuRouteFlowCommand, hfl, h2]

theorem c10_route_no_generation_witness :
    ((sampleProj.file_lists.filter (fun fl => fl.type == "constraint")) = [])
    ∧ runBambuRouteFlowCommand sampleProj "D/" (fun s => s) ⟨false, false, ""⟩ = (none, none) :=
  ⟨by decide,
   (c10_route_no_generation sampleProj "D/" (fun s => s) ⟨false, false, ""⟩).2.2 (by decide) rfl⟩

/-- C6: once a file exists at the constraint destination, generation returns
exactly the path a previous successful run returned, writes nothing, and its
result does not depend on the sources, the Verilog text or the catalogs at
all (no re-read, no re-parse, cache by existence only). -/
theorem c6_idempotent_skip (proj : ProjectInfo) (projectDir : String)
    (inputPins outputPins inputPins2 outputPins2 : List String) (fs fs2 : FsModel) (p : String)
    (h1 : (generateBambuConstraintFile proj projectDir inputPins outputPins fs).1 = some p)
    (h2 : fs2.constraintFileExists = true) :
    generateBambuConstraintFile proj projectDir inputPins2 outputPins2 fs2 = (some p, none) := by
  have hp : p = projectDir ++ (proj.name ++ "_bambu_cons.xml") := by
    rcases generate_shape proj projectDir inputPins outputPins fs with h | h
    · rw [h1] at h
      exact Option.some.inj h
    · rw [h] at h1
      simp at h1
  subst hp
  unfold generateBambuConstraintFile
  simp [h2]

theorem c6_idempotent_skip_witness :
    (generateBambuConstraintFile sampleProj "D/" ["P1", "P2", "P3"] ["Q1"]
        ⟨false, true, sampleVerilog⟩).1 = some ("D/" ++ ("p" ++ "_bambu_cons.xml"))
    ∧ generateBambuConstraintFile sampleProj "D/" [] [] ⟨true, false, ""⟩
        = (some ("D/" ++ ("p" ++ "_bambu_cons.xml")), none) :=
  ⟨by decide,
   c6_idempotent_skip sampleProj "D/" ["P1", "P2", "P3"] ["Q1"] [] [] ⟨false, true, sampleVerilog⟩
     ⟨true, false, ""⟩ ("D/" ++ ("p" ++ "_bambu_cons.xml")) (by decide) rfl⟩

/-- C2: when the needed direction's pin sequence is exhausted, constraint
generation returns the failure value and writes nothing to the destination —
no partial assignment list survives. -/
theorem c2_pin_exhaustion (proj : ProjectInfo) (projectDir : String)
    (inputPins outputPins : List String) (fs : FsModel) (f : FileRecord) (pr : ParseResult)
    (h0 : fs.constraintFileExists = false)
    (h1 : proj.file_lists.find? (fun fl => fl.type == "cpp" || fl.type == "c") = some f)
    (h2 : fs.verilogFileExists = true)
    (h3 : parseHLSVerilogPorts fs.verilogContent (resolvedTopFunction proj) = some pr)
    (h4 : allocPorts inputPins outputPins pr.ports (0, 0) = none) :
    generateBambuConstraintFile proj projectDir inputPins outputPins fs = (none, none) := by
  unfold generateBambuConstraintFile
  simp only [h0, h1, h2, h3, h4]
  simp

theorem c2_pin_exhaustion_witness :
    allocPorts ["P1", "P2"] ["Q1"]
        [⟨"a", PortDir.input, 0, 0⟩, ⟨"b", PortDir.input, 0, 0⟩, ⟨"c", PortDir.input, 0, 0⟩] (0, 0) = none
    ∧ generateBambuConstraintFile sampleProj "D/" ["P1", "P2"] ["Q1"] ⟨false, true, sampleVerilog⟩
        = (none, none) :=
  ⟨by decide,
   c2_pin_exhaustion sampleProj "D/" ["P1", "P2"] ["Q1"] ⟨false, true, sampleVerilog⟩
     ⟨"t.cpp", "D/t.cpp", "cpp"⟩
     ⟨"_Z3foo", [⟨"a", PortDir.input, 0, 0⟩, ⟨"b", PortDir.input, 0, 0⟩, ⟨"c", PortDir.input, 0, 0⟩]⟩
     rfl (by decide) rfl (by decide) (by decide)⟩

/-- The generated constraint path always ends in `_bambu_cons.xml`, hence is
never the empty string (never JS-falsy). -/
lemma generatedPath_ne_empty (d nm : String) : d ++ (nm ++ "_bambu_cons.xml") ≠ "" := by
  intro h
  have h2 := congrArg String.data h
  rw [String.data_append, String.data_append] at h2
  have h3 : ("" : String).data = [] := rfl
  rw [h3] at h2
  obtain ⟨-, h4⟩ := List.append_eq_nil.mp h2
  obtain ⟨-, h5⟩ := List.append_eq_nil.mp h4
  exact absurd h5 (by decide)

/-- C7 (amended): the placement builder uses a declared constraint file's path
exactly when that path is JS-truthy (nonempty), and then performs no
generation and no write; with no declared constraint record it runs the
generator, fails with no descriptor when generation fails, and uses the
generated path (passing the generator's write through) when it succeeds. -/
theorem c7_place_constraint_selection (proj : ProjectInfo) (projectDir : String)
    (rr : String → String) (inputPins outputPins : List String) (fs : FsModel)
    (f : FileRecord) (p : String) (w : Option String) :
    ((proj.file_lists.filter (fun fl => fl.type == "constraint")).head? = some f → f.path ≠ "" →
      runBambuPlaceFlowCommand proj projectDir rr inputPins outputPins fs
        = (some (mkPlaceCommand proj projectDir rr f.path), none))
    ∧ ((proj.file_lists.filter (fun fl => fl.type == "constraint")) = [] →
        (generateBambuConstraintFile proj projectDir inputPins outputPins fs).1 = none →
        runBambuPlaceFlowCommand proj projectDir rr inputPins outputPins fs = (none, none))
    ∧ ((proj.file_lists.filter (fun fl => fl.type == "constraint")) = [] →
        generateBambuConstraintFile proj projectDir inputPins outputPins fs = (some p, w) →
        runBambuPlaceFlowCommand proj projectDir rr inputPins outputPins fs
          = (some (mkPlaceCommand proj projectDir rr p), w)) := by
  refine ⟨?_, ?_, ?_⟩
  · intro hfl hne
    simp [runBambuPlaceFlowCommand, hfl, hne]
  · intro hempty hgen
    have hfl : (proj.file_lists.filter (fun fl => fl.type == "constraint")).head? = none := by
      rw [hempty]; rfl
    rcases generate_shape proj projectDir inputPins outputPins fs with hs | hs
    · rw [hgen] at hs; simp at hs
    · simp [runBambuPlaceFlowCommand, runBambuPlaceAutoGen, hfl, hs]
  · intro hempty hgen
    have hfl : (proj.file_lists.filter (fun fl => fl.type == "constraint")).head? = none := by
      rw [hempty]; rfl
    have hp : p ≠ "" := by
      rcases generate_shape proj projectDir inputPins outputPins fs with hs | hs
      · rw [hgen] at hs
        have := Option.some.inj hs
        rw [this]
        exact generatedPath_ne_empty projectDir proj.name
      · rw [hs] at hgen
        simp at hgen
    simp [runBambuPlaceFlowCommand, runBambuPlaceAutoGen, hfl, hgen, hp]

/-- A project that declares a constraint record whose recorded path is the
empty string, next to a C++ source. -/
def c7proj : ProjectInfo :=
  ⟨"p", "D/p.prj", [⟨"c.xml", "", "constraint"⟩, ⟨"t.cpp", "D/t.cpp", "cpp"⟩],
   ⟨some ⟨some "foo", none⟩, ⟨"Timing Driven"⟩, ⟨"Breath First"⟩⟩⟩

/-- C7 counterexample: this project declares a file tagged `constraint`, yet
the placement builder still runs constraint auto-generation (it writes the
generated artifact) and does not use the declared file's path, because the
declared path is the empty string and the code tests it with JS truthiness. -/
theorem c7_place_counterexample :
    (c7proj.file_lists.filter (fun fl => fl.type == "constraint")).head?
        = some ⟨"c.xml", "", "constraint"⟩
    ∧ (runBambuPlaceFlowCommand c7proj "D/" (fun s => s) ["P1", "P2", "P3"] ["Q1"]
        ⟨false, true, sampleVerilog⟩).2 ≠ none
    ∧ (runBambuPlaceFlowCommand c7proj "D/" (fun s => s) ["P1", "P2", "P3"] ["Q1"]
        ⟨false, true, sampleVerilog⟩).1
        ≠ some (mkPlaceCommand c7proj "D/" (fun s => s) "") :=
  ⟨by decide, by decide, by decide⟩

theorem c7_place_constraint_selection_witness :
    ((sampleProj.file_lists.filter (fun fl => fl.type == "constraint")) = [])
    ∧ runBambuPlaceFlowCommand sampleProj "D/" (fun s => s) [] [] ⟨false, false, ""⟩ = (none, none)
    ∧ runBambuPlaceFlowCommand
        ⟨"p", "D/p.prj", [⟨"c.xml", "D/c.xml", "constraint"⟩], sampleProj.settings⟩
        "D/" (fun s => s) [] [] ⟨false, false, ""⟩
        = (some (mkPlaceCommand
            ⟨"p", "D/p.prj", [⟨"c.xml", "D/c.xml", "constraint"⟩], sampleProj.settings⟩
            "D/" (fun s => s) "D/c.xml"), none) :=
  ⟨by decide,
   (c7_place_constraint_selection sampleProj "D/" (fun s => s) [] [] ⟨false, false, ""⟩
      ⟨"c.xml", "D/c.xml", "constraint"⟩ "" none).2.1 (by decide) (by decide),
   (c7_place_constraint_selection
      ⟨"p", "D/p.prj", [⟨"c.xml", "D/c.xml", "constraint"⟩], sampleProj.settings⟩
      "D/" (fun s => s) [] [] ⟨false, false, ""⟩
      ⟨"c.xml", "D/c.xml", "constraint"⟩ "" none).1 (by decide) (by decide)⟩

/-- Reassociation of the `name + "_bambu_" + suffix` concatenations of the
source into the single artifact names of the protocol. -/
lemma bambuName (s b c bc : String) (h : b ++ c = bc) : s ++ b ++ c = s ++ bc := by
  rw [String.append_assoc, h]

/-- Reassociation of the synthesis tcl line around its trailing `-o` output. -/
lemma tclMerge (a n : String) :
    a ++ " -o " ++ (n ++ "_bambu_" ++ "syn.edf") = a ++ (" -o " ++ (n ++ "_bambu_syn.edf")) := by
  rw [String.append_assoc]
  congr 1
  congr 1
  exact bambuName n "_bambu_" "syn.edf" "_bambu_syn.edf" rfl

/-- C8: consecutive stages agree on artifact names.  The synthesis input is the
HLS output `<source-base>.v` (argument 2, prefixed by the project directory)
and its tcl line ends in `-o <project>_bambu_syn.edf`; map reads
`_bambu_syn.edf` and writes `_bambu_map.xml`; pack reads `_bambu_map.xml` and
writes `_bambu_pack.xml`; place reads `_bambu_pack.xml` and writes
`_bambu_place.xml`; route reads `_bambu_place.xml` and writes
`_bambu_route.xml`; bit generation reads `_bambu_route.xml` and writes
`_bambu_bit.bit`; and the constraint artifact is `<project>_bambu_cons.xml`. -/
theorem c8_artifact_chain (proj : ProjectInfo) (projectDir : String) (rr : String → String)
    (inputPins outputPins : List String) (fs : FsModel) (cstPath : String)
    (f : FileRecord) (p : String)
    (hf : proj.file_lists.find? (fun fl => fl.type == "cpp" || fl.type == "c") = some f) :
    (∃ cmd, runBambuSynthFlowCommand proj projectDir rr = some cmd
      ∧ cmd.args.get? 2 = some (projectDir ++ hlsOutputFileName f.name)
      ∧ ∃ pre, cmd.args.get? 1 = some (pre ++ (" -o " ++ (proj.name ++ "_bambu_syn.edf"))))
    ∧ (runBambuMapFlowCommand proj projectDir rr).args.get? 2 = some (proj.name ++ "_bambu_syn.edf")
    ∧ (runBambuMapFlowCommand proj projectDir rr).args.get? 4 = some (proj.name ++ "_bambu_map.xml")
    ∧ (runBambuPackFlowCommand proj projectDir rr).args.get? 3 = some (proj.name ++ "_bambu_map.xml")
    ∧ (runBambuPackFlowCommand proj projectDir rr).args.get? 9 = some (proj.name ++ "_bambu_pack.xml")
    ∧ (mkPlaceCommand proj projectDir rr cstPath).args.get? 5 = some (proj.name ++ "_bambu_pack.xml")
    ∧ (mkPlaceCommand proj projectDir rr cstPath).args.get? 7 = some (proj.name ++ "_bambu_place.xml")
    ∧ (mkRouteCommand proj projectDir rr cstPath).args.get? 3 = some (proj.name ++ "_bambu_place.xml")
    ∧ (mkRouteCommand proj projectDir rr cstPath).args.get? 5 = some (proj.name ++ "_bambu_route.xml")
    ∧ (runBambuGenBitFlowCommand proj projectDir rr).args.get? 5 = some (proj.name ++ "_bambu_route.xml")
    ∧ (runBambuGenBitFlowCommand proj projectDir rr).args.get? 7 = some (proj.name ++ "_bambu_bit.bit")
    ∧ ((generateBambuConstraintFile proj projectDir inputPins outputPins fs).1 = some p →
        p = projectDir ++ (proj.name ++ "_bambu_cons.xml")) := by
  refine ⟨?_, ?_, ?_, ?_, ?_, ?_, ?_, ?_, ?_, ?_, ?_, ?_⟩
  · cases hcmd : runBambuSynthFlowCommand proj projectDir rr with
    | none =>
      rw [runBambuSynthFlowCommand, hf] at hcmd
      simp at hcmd
    | some cmd =>
      refine ⟨cmd, rfl, ?_, ?_⟩
      · rw [runBambuSynthFlowCommand, hf] at hcmd
        have hc := Option.some.inj hcmd
        rw [← hc]
        rfl
      · rw [runBambuSynthFlowCommand, hf] at hcmd
        have hc := Option.some.inj hcmd
        refine ⟨"tcl " ++ rr "resource/yosys/yosys_fde.tcl"
          ++ " -l " ++ rr "resource/yosys/fdesimlib.v"
          ++ " -m " ++ rr "resource/yosys/techmap.v"
          ++ " -c " ++ rr "resource/yosys/cells_map.v", ?_⟩
        rw [← hc]
        exact congrArg some (tclMerge _ proj.name)
  · exact congrArg some (bambuName proj.name "_bambu_" "syn.edf" "_bambu_syn.edf" rfl)
  · exact congrArg some (bambuName proj.name "_bambu_" "map.xml" "_bambu_map.xml" rfl)
  · exact congrArg some (bambuName proj.name "_bambu_" "map.xml" "_bambu_map.xml" rfl)
  · exact congrArg some (bambuName proj.name "_bambu_" "pack.xml" "_bambu_pack.xml" rfl)
  · exact congrArg some (bambuName proj.name "_bambu_" "pack.xml" "_bambu_pack.xml" rfl)
  · exact congrArg some (bambuName proj.name "_bambu_" "place.xml" "_bambu_place.xml" rfl)
  · exact congrArg some (bambuName proj.name "_bambu_" "place.xml" "_bambu_place.xml" rfl)
  · exact congrArg some (bambuName proj.name "_bambu_" "route.xml" "_bambu_route.xml" rfl)
  · exact congrArg some (bambuName proj.name "_bambu_" "route.xml" "_bambu_route.xml" rfl)
  · exact congrArg some (bambuName proj.name "_bambu_" "bit.bit" "_bambu_bit.bit" rfl)
  · intro hgen
    rcases generate_shape proj projectDir inputPins outputPins fs with hs | hs
    · rw [hgen] at hs
      exact Option.some.inj hs
    · rw [hs] at hgen
      simp at hgen

theorem c8_artifact_chain_witness :
    (runBambuMapFlowCommand sampleProj "D/" (fun s => s)).args.get? 2
        = some (sampleProj.name ++ "_bambu_syn.edf")
    ∧ (runBambuPackFlowCommand sampleProj "D/" (fun s => s)).args.get? 3
        = some (sampleProj.name ++ "_bambu_map.xml")
    ∧ (mkPlaceCommand sampleProj "D/" (fun s => s) "c.xml").args.get? 5
        = some (sampleProj.name ++ "_bambu_pack.xml")
    ∧ (mkRouteCommand sampleProj "D/" (fun s => s) "c.xml").args.get? 3
        = some (sampleProj.name ++ "_bambu_place.xml")
    ∧ (runBambuGenBitFlowCommand sampleProj "D/" (fun s => s)).args.get? 5
        = some (sampleProj.name ++ "_bambu_route.xml")
    ∧ (runBambuGenBitFlowCommand sampleProj "D/" (fun s => s)).args.get? 7
        = some (sampleProj.name ++ "_bambu_bit.bit") :=
  ⟨(c8_artifact_chain sampleProj "D/" (fun s => s) [] [] ⟨true, false, ""⟩ "c.xml"
      ⟨"t.cpp", "D/t.cpp", "cpp"⟩ "" (by decide)).2.1,
   (c8_artifact_chain sampleProj "D/" (fun s => s) [] [] ⟨true, false, ""⟩ "c.xml"
      ⟨"t.cpp", "D/t.cpp", "cpp"⟩ "" (by decide)).2.2.2.1,
   (c8_artifact_chain sampleProj "D/" (fun s => s) [] [] ⟨true, false, ""⟩ "c.xml"
      ⟨"t.cpp", "D/t.cpp", "cpp"⟩ "" (by decide)).2.2.2.2.2.1,
   (c8_artifact_chain sampleProj "D/" (fun s => s) [] [] ⟨true, false, ""⟩ "c.xml"
      ⟨"t.cpp", "D/t.cpp", "cpp"⟩ "" (by decide)).2.2.2.2.2.2.2.1,
   (c8_artifact_chain sampleProj "D/" (fun s => s) [] [] ⟨true, false, ""⟩ "c.xml"
      ⟨"t.cpp", "D/t.cpp", "cpp"⟩ "" (by decide)).2.2.2.2.2.2.2.2.2.1,
   (c8_artifact_chain sampleProj "D/" (fun s => s) [] [] ⟨true, false, ""⟩ "c.xml"
      ⟨"t.cpp", "D/t.cpp", "cpp"⟩ "" (by decide)).2.2.2.2.2.2.2.2.2.2.1⟩

/-- C4 counterexample: with merely per-sequence uniqueness the produced
assignments can reuse a pin identifier — a catalog whose input and output
sequences share `"P1"` hands the same pin to an input port and an output
port. -/
theorem c4_pin_reuse_counterexample :
    (["P1"] : List String).Nodup
    ∧ (allocPorts ["P1"] ["P1"]
          [⟨"a", PortDir.input, 0, 0⟩, ⟨"b", PortDir.output, 0, 0⟩] (0, 0)).map
        (fun r => r.1.map PinAssignment.pin) = some ["P1", "P1"]
    ∧ ¬ (["P1", "P1"] : List String).Nodup :=
  ⟨by decide, by decide, by decide⟩

/-- C4 (amended): when the two catalog sequences are each duplicate-free and
also disjoint from one another, every produced assignment list is injective in
pins, and each pin is drawn from the catalog sequence matching the
assignment's direction. -/
theorem c4_pin_injectivity (ports : List Port) (ip op : List String)
    (asg : List PinAssignment) (st : Nat × Nat)
    (hip : ip.Nodup) (hop : op.Nodup) (hdisj : ∀ x ∈ ip, x ∉ op)
    (h : allocPorts ip op ports (0, 0) = some (asg, st)) :
    (asg.map PinAssignment.pin).Nodup
    ∧ ∀ a ∈ asg, (a.direction = PortDir.input → a.pin ∈ ip)
        ∧ (a.direction = PortDir.output → a.pin ∈ op) := by
  obtain ⟨i', o'⟩ := st
  obtain ⟨-, hi', -, ho', hin, hout⟩ := allocPorts_pins (Nat.zero_le _) (Nat.zero_le _) h
  rw [List.drop_zero, Nat.sub_zero] at hin hout
  have hsubI : ∀ x ∈ inputPinsUsed asg, x ∈ ip := by
    intro x hx
    rw [hin] at hx
    exact (List.take_sublist _ _).subset hx
  have hsubO : ∀ x ∈ outputPinsUsed asg, x ∈ op := by
    intro x hx
    rw [hout] at hx
    exact (List.take_sublist _ _).subset hx
  constructor
  · apply mergeNodup
    · rw [hin]
      exact (List.take_sublist _ _).nodup hip
    · rw [hout]
      exact (List.take_sublist _ _).nodup hop
    · intro x hx hy
      exact hdisj x (hsubI x hx) (hsubO x hy)
  · intro a ha
    constructor
    · intro hdir
      apply hsubI
      simp only [inputPinsUsed, List.mem_map]
      refine ⟨a, ?_, rfl⟩
      rw [List.mem_filter]
      exact ⟨ha, by simp [isInputA, hdir]⟩
    · intro hdir
      apply hsubO
      simp only [outputPinsUsed, List.mem_map]
      refine ⟨a, ?_, rfl⟩
      rw [List.mem_filter]
      exact ⟨ha, by simp [isInputA, hdir]⟩

theorem c4_pin_injectivity_witness :
    allocPorts ["P1", "P2"] ["Q1"]
        [⟨"a", PortDir.input, 0, 0⟩, ⟨"b", PortDir.output, 0, 0⟩, ⟨"c", PortDir.input, 0, 0⟩] (0, 0)
      = some ([⟨"a", "P1", PortDir.input⟩, ⟨"b", "Q1", PortDir.output⟩,
               ⟨"c", "P2", PortDir.input⟩], (2, 1))
    ∧ ((([⟨"a", "P1", PortDir.input⟩, ⟨"b", "Q1", PortDir.output⟩,
          ⟨"c", "P2", PortDir.input⟩] : List PinAssignment).map PinAssignment.pin).Nodup) :=
  ⟨by decide,
   (c4_pin_injectivity
      [⟨"a", PortDir.input, 0, 0⟩, ⟨"b", PortDir.output, 0, 0⟩, ⟨"c", PortDir.input, 0, 0⟩]
      ["P1", "P2"] ["Q1"]
      [⟨"a", "P1", PortDir.input⟩, ⟨"b", "Q1", PortDir.output⟩, ⟨"c", "P2", PortDir.input⟩]
      (2, 1) (by decide) (by decide) (by decide) (by decide)).1⟩

/-- C3: for a bus port (`msb ≠ lsb`) the allocation loop hands the port to the
bus expansion, which yields exactly `max-min+1` assignments named `name[i]`
for `i` ascending from `min(msb,lsb)` to `max(msb,lsb)`, all of the port's
direction, forming the leading segment of the run's assignment list, and
consuming exactly that many pins, in order, from the catalog sequence of that
direction. -/
theorem c3_bus_expansion (p : Port) (ps : List Port) (ip op : List String)
    (asg : List PinAssignment) (st : Nat × Nat)
    (h1 : p.name ≠ "clock") (h2 : p.msb ≠ p.lsb)
    (h : allocPorts ip op (p :: ps) (0, 0) = some (asg, st)) :
    (allocBus p.name p.direction ip op
        (List.range' (min p.msb p.lsb) (max p.msb p.lsb + 1 - min p.msb p.lsb)) (0, 0)).isSome
    ∧ ∀ as1 st1,
        allocBus p.name p.direction ip op
            (List.range' (min p.msb p.lsb) (max p.msb p.lsb + 1 - min p.msb p.lsb)) (0, 0)
          = some (as1, st1) →
        as1.length = max p.msb p.lsb - min p.msb p.lsb + 1
        ∧ as1.map PinAssignment.portInstance
            = (List.range' (min p.msb p.lsb) (max p.msb p.lsb + 1 - min p.msb p.lsb)).map
                (fun k => p.name ++ "[" ++ Nat.repr k ++ "]")
        ∧ (∀ a ∈ as1, a.direction = p.direction)
        ∧ asg.take as1.length = as1
        ∧ (p.direction = PortDir.input → as1.map PinAssignment.pin = ip.take as1.length)
        ∧ (p.direction = PortDir.output → as1.map PinAssignment.pin = op.take as1.length) := by
  rw [allocPorts, if_neg h1, if_pos h2] at h
  cases hab : allocBus p.name p.direction ip op
      (List.range' (min p.msb p.lsb) (max p.msb p.lsb + 1 - min p.msb p.lsb)) (0, 0) with
  | none =>
    simp only [hab] at h
    simp at h
  | some r =>
    obtain ⟨as1', i1, o1⟩ := r
    refine ⟨rfl, ?_⟩
    intro as1 st1 hab2
    have hr := Option.some.inj hab2
    injection hr with hras hrst
    subst hras
    subst hrst
    obtain ⟨hs1, hs2, hs3⟩ := allocBus_shape hab
    obtain ⟨-, hbi, -, hbo, hbin, hbout⟩ := allocBus_pins (Nat.zero_le _) (Nat.zero_le _) hab
    rw [List.drop_zero, Nat.sub_zero] at hbin
    rw [List.drop_zero, Nat.sub_zero] at hbout
    simp only [hab] at h
    cases hrec : allocPorts ip op ps (i1, o1) with
    | none =>
      simp only [hrec] at h
      simp at h
    | some r2 =>
      obtain ⟨as2, st2⟩ := r2
      simp only [hrec, Option.some.injEq, Prod.mk.injEq] at h
      obtain ⟨hasg, -⟩ := h
      have hmin : min p.msb p.lsb ≤ max p.msb p.lsb := min_le_max
      have hlen : as1'.length = max p.msb p.lsb + 1 - min p.msb p.lsb := by
        rw [hs2, List.length_range']
      refine ⟨by rw [hlen]; omega, hs1, hs3, ?_, ?_, ?_⟩
      · rw [← hasg, List.take_left]
      · intro hdir
        have hfilter : as1'.filter isInputA = as1' := by
          apply List.filter_eq_self.mpr
          intro a ha
          have hd := hs3 a ha
          rw [hdir] at hd
          simp [isInputA, hd]
        have hmap : inputPinsUsed as1' = as1'.map PinAssignment.pin := by
          rw [inputPinsUsed, hfilter]
        have hbin2 : as1'.map PinAssignment.pin = ip.take i1 := by
          rw [← hmap, hbin]
        have hilen : i1 = as1'.length := by
          have hl1 : (as1'.map PinAssignment.pin).length = as1'.length := List.length_map _ _
          rw [hbin2, List.length_take] at hl1
          omega
        rw [hbin2, hilen]
      · intro hdir
        have hfilter : as1'.filter (fun a => ! isInputA a) = as1' := by
          apply List.filter_eq_self.mpr
          intro a ha
          have hd := hs3 a ha
          rw [hdir] at hd
          simp [isInputA, hd]
        have hmap : outputPinsUsed as1' = as1'.map PinAssignment.pin := by
          rw [outputPinsUsed, hfilter]
        have hbout2 : as1'.map PinAssignment.pin = op.take o1 := by
          rw [← hmap, hbout]
        have holen : o1 = as1'.length := by
          have hl1 : (as1'.map PinAssignment.pin).length = as1'.length := List.length_map _ _
          rw [hbout2, List.length_take] at hl1
          omega
        rw [hbout2, holen]

/-- Eight-pin input catalog for the concrete bus run. -/
def c3pins : List String := ["P1", "P2", "P3", "P4", "P5", "P6", "P7", "P8"]

/-- The assignments the concrete `[7:0]` bus run produces. -/
def c3busAsg : List PinAssignment :=
  [⟨"port[0]", "P1", PortDir.input⟩, ⟨"port[1]", "P2", PortDir.input⟩,
   ⟨"port[2]", "P3", PortDir.input⟩, ⟨"port[3]", "P4", PortDir.input⟩,
   ⟨"port[4]", "P5", PortDir.input⟩, ⟨"port[5]", "P6", PortDir.input⟩,
   ⟨"port[6]", "P7", PortDir.input⟩, ⟨"port[7]", "P8", PortDir.input⟩]

theorem c3_bus_expansion_witness :
    c3busAsg.length = max 7 0 - min 7 0 + 1
    ∧ c3busAsg.map PinAssignment.portInstance
        = (List.range' (min 7 0) (max 7 0 + 1 - min 7 0)).map
            (fun k => "port" ++ "[" ++ Nat.repr k ++ "]")
    ∧ c3busAsg.take c3busAsg.length = c3busAsg
    ∧ c3busAsg.map PinAssignment.pin = c3pins.take c3busAsg.length :=
  ⟨((c3_bus_expansion ⟨"port", PortDir.input, 7, 0⟩ [] c3pins [] c3busAsg (8, 0)
      (by decide) (by decide) (by decide)).2 c3busAsg (8, 0) (by decide)).1,
   ((c3_bus_expansion ⟨"port", PortDir.input, 7, 0⟩ [] c3pins [] c3busAsg (8, 0)
      (by decide) (by decide) (by decide)).2 c3busAsg (8, 0) (by decide)).2.1,
   ((c3_bus_expansion ⟨"port", PortDir.input, 7, 0⟩ [] c3pins [] c3busAsg (8, 0)
      (by decide) (by decide) (by decide)).2 c3busAsg (8, 0) (by decide)).2.2.2.1,
   ((c3_bus_expansion ⟨"port", PortDir.input, 7, 0⟩ [] c3pins [] c3busAsg (8, 0)
      (by decide) (by decide) (by decide)).2 c3busAsg (8, 0) (by decide)).2.2.2.2.1 rfl⟩

/-- C1 (amended): port extraction scans, in declaration order, exactly the
module blocks whose names have the mangled shape `_Z<digits><word-chars>`
(that is the shape the source's module regex hard-codes); it returns the name
and parsed body ports of the first such block whose name contains the target
case-insensitively, ignoring every other block's declarations, and `none`
exactly when no such block qualifies. -/
theorem c1_extraction_first_match (content target : String) :
    (∀ r : ParseResult,
      parseHLSVerilogPorts content target = some r ↔
        ∃ pre mb post, findModules isMangledName content = pre ++ mb :: post
          ∧ (∀ m ∈ pre, containsCI m.name target = false)
          ∧ containsCI mb.name target = true
          ∧ r = ⟨mb.name, findPorts mb.body⟩)
    ∧ (parseHLSVerilogPorts content target = none ↔
        ∀ m ∈ findModules isMangledName content, containsCI m.name target = false) := by
  constructor
  · intro r
    constructor
    · intro h
      cases hf : (findModules isMangledName content).find?
          (fun mb => containsCI mb.name target) with
      | none =>
        simp only [parseHLSVerilogPorts, hf] at h
        exact absurd h (by simp)
      | some mb =>
        simp only [parseHLSVerilogPorts, hf, Option.some.injEq] at h
        rw [List.find?_eq_some] at hf
        obtain ⟨hpmb, pre, post, heq, hall⟩ := hf
        exact ⟨pre, mb, post, heq,
          fun m hm => by simpa using hall m hm, hpmb, h.symm⟩
    · rintro ⟨pre, mb, post, heq, hall, hmb, rfl⟩
      have hf : (findModules isMangledName content).find?
          (fun mb => containsCI mb.name target) = some mb := by
        rw [List.find?_eq_some]
        exact ⟨hmb, pre, post, heq, fun a ha => by simpa using hall a ha⟩
      simp [parseHLSVerilogPorts, hf]
  · constructor
    · intro h m hm
      cases hf : (findModules isMangledName content).find?
          (fun mb => containsCI mb.name target) with
      | some mb =>
        simp only [parseHLSVerilogPorts, hf] at h
        exact absurd h (by simp)
      | none =>
        rw [List.find?_eq_none] at hf
        simpa using hf m hm
    · intro h
      have hf : (findModules isMangledName content).find?
          (fun mb => containsCI mb.name target) = none := by
        rw [List.find?_eq_none]
        intro m hm
        simp [h m hm]
      simp [parseHLSVerilogPorts, hf]

/-- A hardware-description text whose only module is named `main` — a name
without the compiler-mangled `_Z<len><name>` shape. -/
def c1text : String := "module main (a);\ninput a;\nendmodule"

/-- C1 counterexample: the spec-worded extractor (scan all module blocks,
any name shape) finds module `main`, whose name contains the target `main`,
and returns its port `a`; the code returns `null` on the same input because
its regex only matches mangled module names. -/
theorem c1_extraction_counterexample :
    extractTopModuleSpec c1text "main" = some ⟨"main", [⟨"a", PortDir.input, 0, 0⟩]⟩
    ∧ parseHLSVerilogPorts c1text "main" = none :=
  ⟨by decide, by decide⟩
